import Mathlib

/-!
Shallow embedding of `src/core/Sk4pxXfermode.h`: the Porter–Duff and
separable blend kernels over premultiplied 32-bit BGRA pixels, the
coverage (AA) wrapper with its Plus specialization, and the mode
dispatcher `SkCreate4pxXfermode`.

The `Sk4px` SIMD primitive lives outside the provided sources, so its
per-channel operations are modelled from the specification's contracts
(§3 Data model and the glossary).  Each lane of a pixel is modelled as a
`Nat`; narrow (8-bit) lanes wrap modulo 256 and wide (16-bit) lanes wrap
modulo 65536, matching unsigned SIMD lane arithmetic.
-/

namespace Sk4px

/-- Modelled from the spec: `inv()` — per-byte `255 − x` (Sk4px primitive,
not under src/). -/
def invC (x : Nat) : Nat := 255 - x

/-- Modelled from the spec: `saturatedAdd` — per-byte addition clamped to
[0, 255] (Sk4px primitive, not under src/). -/
def satAddC (x y : Nat) : Nat := min (x + y) 255

/-- Modelled from the spec: `approxMulDiv255` — the fast per-byte
approximation of `round(x·y/255)` that is exact on endpoints 0 and 255 and
within 1 elsewhere; the classical form `(x·y + x) / 256` (Sk4px primitive,
not under src/). -/
def amd255C (x y : Nat) : Nat := (x * y + x) / 256

/-- Modelled from the spec: `div255` — the exact rounded division
`round(x/255)` on a 16-bit lane (Sk4px primitive, not under src/). -/
def div255C (x : Nat) : Nat := (x + 127) / 255

/-- Modelled from the spec: narrow (8-bit) lane addition, wrapping. -/
def addN (x y : Nat) : Nat := (x + y) % 256

/-- Modelled from the spec: narrow (8-bit) lane subtraction, wrapping. -/
def subN (x y : Nat) : Nat := (x % 256 + 256 - y % 256) % 256

/-- Modelled from the spec: wide (16-bit) lane addition, wrapping. -/
def addW (x y : Nat) : Nat := (x + y) % 65536

/-- Modelled from the spec: wide (16-bit) lane subtraction, wrapping. -/
def subW (x y : Nat) : Nat := (x % 65536 + 65536 - y % 65536) % 65536

/-- Modelled from the spec: widening multiply, narrow×narrow → wide. -/
def mulW (x y : Nat) : Nat := (x * y) % 65536

/-- Modelled from the spec: wide `<< 1`, wrapping at 16 bits. -/
def shlW (x : Nat) : Nat := (2 * x) % 65536

/-- One premultiplied pixel: four 8-bit channels B, G, R, A.  The four
SIMD lanes of an `Sk4px` are independent, so one lane suffices as the
arithmetic model. -/
structure Pixel where
  b : Nat
  g : Nat
  r : Nat
  a : Nat
deriving DecidableEq, Repr

/-- One pixel widened to 16-bit channels (`Sk4px::Wide`). -/
structure Wide where
  b : Nat
  g : Nat
  r : Nat
  a : Nat
deriving DecidableEq, Repr

/-- A per-channel comparison mask (`thenElse` selector). -/
structure Mask where
  b : Bool
  g : Bool
  r : Bool
  a : Bool
deriving DecidableEq, Repr

/-- The premultiplied-alpha invariant from the spec's data model: every
color channel is at most the alpha channel, and all channels are valid
bytes. -/
def Premul (p : Pixel) : Prop :=
  p.b ≤ p.a ∧ p.g ≤ p.a ∧ p.r ≤ p.a ∧ p.a ≤ 255

instance (p : Pixel) : Decidable (Premul p) := by
  unfold Premul; infer_instance

/-- Modelled from the spec: `alphas()` — the alpha byte broadcast over all
four channels. -/
def Pixel.alphas (p : Pixel) : Pixel := ⟨p.a, p.a, p.a, p.a⟩

/-- Modelled from the spec: per-byte `inv()`. -/
def Pixel.inv (p : Pixel) : Pixel := ⟨invC p.b, invC p.g, invC p.r, invC p.a⟩

/-- Modelled from the spec: `zeroAlphas()` — alpha byte set to 0. -/
def Pixel.zeroAlphas (p : Pixel) : Pixel := ⟨p.b, p.g, p.r, 0⟩

/-- Modelled from the spec: `zeroColors()` — color bytes set to 0. -/
def Pixel.zeroColors (p : Pixel) : Pixel := ⟨0, 0, 0, p.a⟩

/-- Modelled from the spec: narrow per-byte `+`. -/
def Pixel.add (p q : Pixel) : Pixel :=
  ⟨addN p.b q.b, addN p.g q.g, addN p.r q.r, addN p.a q.a⟩

/-- Modelled from the spec: narrow per-byte `−`. -/
def Pixel.sub (p q : Pixel) : Pixel :=
  ⟨subN p.b q.b, subN p.g q.g, subN p.r q.r, subN p.a q.a⟩

/-- Modelled from the spec: `saturatedAdd`. -/
def Pixel.saturatedAdd (p q : Pixel) : Pixel :=
  ⟨satAddC p.b q.b, satAddC p.g q.g, satAddC p.r q.r, satAddC p.a q.a⟩

/-- Modelled from the spec: `approxMulDiv255`. -/
def Pixel.approxMulDiv255 (p q : Pixel) : Pixel :=
  ⟨amd255C p.b q.b, amd255C p.g q.g, amd255C p.r q.r, amd255C p.a q.a⟩

/-- Modelled from the spec: widening multiply `s * d` (narrow×narrow → wide). -/
def Pixel.mulWiden (p q : Pixel) : Wide :=
  ⟨mulW p.b q.b, mulW p.g q.g, mulW p.r q.r, mulW p.a q.a⟩

/-- Modelled from the spec: element-wise `<` producing a mask. -/
def Pixel.lt (p q : Pixel) : Mask :=
  ⟨decide (p.b < q.b), decide (p.g < q.g), decide (p.r < q.r), decide (p.a < q.a)⟩

/-- Modelled from the spec: wide `+`. -/
def Wide.add (u v : Wide) : Wide :=
  ⟨addW u.b v.b, addW u.g v.g, addW u.r v.r, addW u.a v.a⟩

/-- Modelled from the spec: wide `−`. -/
def Wide.sub (u v : Wide) : Wide :=
  ⟨subW u.b v.b, subW u.g v.g, subW u.r v.r, subW u.a v.a⟩

/-- Modelled from the spec: wide `<< 1`. -/
def Wide.shl1 (u : Wide) : Wide := ⟨shlW u.b, shlW u.g, shlW u.r, shlW u.a⟩

/-- Modelled from the spec: `Min(wide, wide)`. -/
def Wide.Min (u v : Wide) : Wide :=
  ⟨min u.b v.b, min u.g v.g, min u.r v.r, min u.a v.a⟩

/-- Modelled from the spec: `div255` — wide → narrow, exact rounding. -/
def Wide.div255 (u : Wide) : Pixel :=
  ⟨div255C u.b, div255C u.g, div255C u.r, div255C u.a⟩

/-- Modelled from the spec: `zeroAlphas()` on a narrow pixel is reused on
narrow results of `div255`; this is its (trivial) mask analogue used by
`widenLoHi` — a narrow mask reinterpreted over the wide lanes of the same
pixel. -/
def Mask.widenLoHi (m : Mask) : Mask := m

/-- Modelled from the spec: `thenElse` with a narrow mask. -/
def Mask.thenElseN (m : Mask) (p q : Pixel) : Pixel :=
  ⟨bif m.b then p.b else q.b, bif m.g then p.g else q.g,
   bif m.r then p.r else q.r, bif m.a then p.a else q.a⟩

/-- Modelled from the spec: `thenElse` with a wide mask. -/
def Mask.thenElseW (m : Mask) (u v : Wide) : Wide :=
  ⟨bif m.b then u.b else v.b, bif m.g then u.g else v.g,
   bif m.r then u.r else v.r, bif m.a then u.a else v.a⟩

/-! ### The blend kernels (translated from `Sk4pxXfermode.h`) -/

/-- `XFERMODE(Clear) { return Sk4px::DupPMColor(0); }` -/
def Clear (_s _d : Pixel) : Pixel := ⟨0, 0, 0, 0⟩

/-- `XFERMODE(Src) { return s; }` -/
def Src (s _d : Pixel) : Pixel := s

/-- `XFERMODE(Dst) { return d; }` -/
def Dst (_s d : Pixel) : Pixel := d

/-- `XFERMODE(SrcIn) { return s.approxMulDiv255(d.alphas()); }` -/
def SrcIn (s d : Pixel) : Pixel := s.approxMulDiv255 d.alphas

/-- `XFERMODE(SrcOut) { return s.approxMulDiv255(d.alphas().inv()); }` -/
def SrcOut (s d : Pixel) : Pixel := s.approxMulDiv255 d.alphas.inv

/-- `XFERMODE(SrcOver) { return s + d.approxMulDiv255(s.alphas().inv()); }` -/
def SrcOver (s d : Pixel) : Pixel := s.add (d.approxMulDiv255 s.alphas.inv)

/-- `XFERMODE(DstIn) { return SrcIn::Xfer(d,s); }` -/
def DstIn (s d : Pixel) : Pixel := SrcIn d s

/-- `XFERMODE(DstOut) { return SrcOut::Xfer(d,s); }` -/
def DstOut (s d : Pixel) : Pixel := SrcOut d s

/-- `XFERMODE(DstOver) { return SrcOver::Xfer(d,s); }` -/
def DstOver (s d : Pixel) : Pixel := SrcOver d s

/-- `XFERMODE(SrcATop) { return (s * d.alphas() + d * s.alphas().inv()).div255(); }` -/
def SrcATop (s d : Pixel) : Pixel :=
  ((s.mulWiden d.alphas).add (d.mulWiden s.alphas.inv)).div255

/-- `XFERMODE(DstATop) { return SrcATop::Xfer(d,s); }` -/
def DstATop (s d : Pixel) : Pixel := SrcATop d s

/-- `XFERMODE(Xor) { return (s * d.alphas().inv() + d * s.alphas().inv()).div255(); }` -/
def Xor (s d : Pixel) : Pixel :=
  ((s.mulWiden d.alphas.inv).add (d.mulWiden s.alphas.inv)).div255

/-- `XFERMODE(Plus) { return s.saturatedAdd(d); }` -/
def Plus (s d : Pixel) : Pixel := s.saturatedAdd d

/-- `XFERMODE(Modulate) { return s.approxMulDiv255(d); }` -/
def Modulate (s d : Pixel) : Pixel := s.approxMulDiv255 d

/-- `XFERMODE(Screen) { return s + d.approxMulDiv255(s.inv()); }` -/
def Screen (s d : Pixel) : Pixel := s.add (d.approxMulDiv255 s.inv)

/-- `XFERMODE(Multiply) { return (s * d.alphas().inv() + d * s.alphas().inv() + s*d).div255(); }` -/
def Multiply (s d : Pixel) : Pixel :=
  (((s.mulWiden d.alphas.inv).add (d.mulWiden s.alphas.inv)).add
    (s.mulWiden d)).div255

/-- `XFERMODE(Difference)`: `m = Min(s*da, d*sa).div255();
return (s - m) + (d - m.zeroAlphas());` -/
def Difference (s d : Pixel) : Pixel :=
  let m := (Wide.Min (s.mulWiden d.alphas) (d.mulWiden s.alphas)).div255
  (s.sub m).add (d.sub m.zeroAlphas)

/-- `XFERMODE(Exclusion)`: `p = s.approxMulDiv255(d);
return (s - p) + (d - p.zeroAlphas());` -/
def Exclusion (s d : Pixel) : Pixel :=
  let p := s.approxMulDiv255 d
  (s.sub p).add (d.sub p.zeroAlphas)

/-- `XFERMODE(HardLight)` translated line by line. -/
def HardLight (s d : Pixel) : Pixel :=
  let sa := s.alphas
  let da := d.alphas
  let srcover := s.add ((d.mulWiden sa.inv).div255)
  let isLite := ((sa.sub s).lt s).widenLoHi
  let lite := (sa.mulWiden da).sub (((da.sub d).mulWiden (sa.sub s)).shl1)
  let dark := (s.mulWiden d).shl1
  let both := (s.mulWiden da.inv).add (d.mulWiden sa.inv)
  let alphas := srcover
  let colors := (both.add (isLite.thenElseW lite dark)).div255
  alphas.zeroColors.add colors.zeroAlphas

/-- `XFERMODE(Overlay) { return HardLight::Xfer(d,s); }` -/
def Overlay (s d : Pixel) : Pixel := HardLight d s

/-- `XFERMODE(Darken)` translated line by line. -/
def Darken (s d : Pixel) : Pixel :=
  let sa := s.alphas
  let da := d.alphas
  let sda := (s.mulWiden da).div255
  let dsa := (d.mulWiden sa).div255
  let srcover := s.add ((d.mulWiden sa.inv).div255)
  let dstover := d.add ((s.mulWiden da.inv).div255)
  let alphas := srcover
  let colors := (sda.lt dsa).thenElseN srcover dstover
  alphas.zeroColors.add colors.zeroAlphas

/-- `XFERMODE(Lighten)` translated line by line. -/
def Lighten (s d : Pixel) : Pixel :=
  let sa := s.alphas
  let da := d.alphas
  let sda := (s.mulWiden da).div255
  let dsa := (d.mulWiden sa).div255
  let srcover := s.add ((d.mulWiden sa.inv).div255)
  let dstover := d.add ((s.mulWiden da.inv).div255)
  let alphas := srcover
  let colors := (dsa.lt sda).thenElseN srcover dstover
  alphas.zeroColors.add colors.zeroAlphas

/-- The 22 kernel tags handled by `SkCreate4pxXfermode`. -/
inductive Mode where
  | Clear | Src | Dst | SrcOver | DstOver | SrcIn | DstIn | SrcOut | DstOut
  | SrcATop | DstATop | Xor | Plus | Modulate | Screen | Multiply
  | Difference | Exclusion | HardLight | Overlay | Darken | Lighten
deriving DecidableEq, Repr

/-- `ProcType::Xfer` for each kernel tag. -/
def xfer : Mode → Pixel → Pixel → Pixel
  | .Clear => Clear
  | .Src => Src
  | .Dst => Dst
  | .SrcOver => SrcOver
  | .DstOver => DstOver
  | .SrcIn => SrcIn
  | .DstIn => DstIn
  | .SrcOut => SrcOut
  | .DstOut => DstOut
  | .SrcATop => SrcATop
  | .DstATop => DstATop
  | .Xor => Xor
  | .Plus => Plus
  | .Modulate => Modulate
  | .Screen => Screen
  | .Multiply => Multiply
  | .Difference => Difference
  | .Exclusion => Exclusion
  | .HardLight => HardLight
  | .Overlay => Overlay
  | .Darken => Darken
  | .Lighten => Lighten

/-- The generic AA fallback `xfer_aa`:
`bw = Mode::Xfer(s, d); return (bw * aa + d * aa.inv()).div255();` -/
def xferAaGeneric (m : Mode) (s d aa : Pixel) : Pixel :=
  let bw := xfer m s d
  ((bw.mulWiden aa).add (d.mulWiden aa.inv)).div255

/-- `xfer_aa` with its template specialization for Plus:
`XFERMODE_AA(Plus) { return d.saturatedAdd(s.approxMulDiv255(aa)); }` -/
def xferAa (m : Mode) (s d aa : Pixel) : Pixel :=
  match m with
  | .Plus => d.saturatedAdd (s.approxMulDiv255 aa)
  | _ => xferAaGeneric m s d aa

/-- The full `SkXfermode::Mode` enumeration the dispatcher switches over. -/
inductive SkXfermodeMode where
  | Clear | Src | Dst | SrcOver | DstOver | SrcIn | DstIn | SrcOut | DstOut
  | SrcATop | DstATop | Xor | Plus | Modulate | Screen | Overlay | Darken
  | Lighten | ColorDodge | ColorBurn | HardLight | SoftLight | Difference
  | Exclusion | Multiply | Hue | Saturation | Color | Luminosity
deriving DecidableEq, Repr

/-- `SkCreate4pxXfermode`: the switch returning a kernel handler for the
supported modes and the "not handled" sentinel (`nullptr`, here `none`)
for everything else.  The `SK_SUPPORT_LEGACY_XFERMODES` staging flag is
not defined, so HardLight, Overlay, Darken and Lighten are included. -/
def SkCreate4pxXfermode : SkXfermodeMode → Option Mode
  | .Clear => some .Clear
  | .Src => some .Src
  | .Dst => some .Dst
  | .SrcOver => some .SrcOver
  | .DstOver => some .DstOver
  | .SrcIn => some .SrcIn
  | .DstIn => some .DstIn
  | .SrcOut => some .SrcOut
  | .DstOut => some .DstOut
  | .SrcATop => some .SrcATop
  | .DstATop => some .DstATop
  | .Xor => some .Xor
  | .Plus => some .Plus
  | .Modulate => some .Modulate
  | .Screen => some .Screen
  | .Multiply => some .Multiply
  | .Difference => some .Difference
  | .Exclusion => some .Exclusion
  | .HardLight => some .HardLight
  | .Overlay => some .Overlay
  | .Darken => some .Darken
  | .Lighten => some .Lighten
  | _ => none

/-- The 22 identifiers the dispatcher recognizes, in source order. -/
def supportedModes : List SkXfermodeMode :=
  [.Clear, .Src, .Dst, .SrcOver, .DstOver, .SrcIn, .DstIn, .SrcOut, .DstOut,
   .SrcATop, .DstATop, .Xor, .Plus, .Modulate, .Screen, .Multiply,
   .Difference, .Exclusion, .HardLight, .Overlay, .Darken, .Lighten]

/-- Buffer-level semantics of `xfer32` without coverage: the dispatcher
walks the parallel buffers and overwrites the destination, lane-wise;
an unhandled mode yields the sentinel and the destination is untouched. -/
def xfer32 (mode : SkXfermodeMode) (dst src : List Pixel) :
    Option (List Pixel) :=
  (SkCreate4pxXfermode mode).map fun m =>
    List.zipWith (fun d s => xfer m s d) dst src

/-! ### Named raw intermediates of HardLight and Difference (for the
16-bit fit analysis).  These are the mathematical lane values the code
produces between widening and the next `div255`, before any 16-bit
wrap is applied. -/

/-- The raw (unwrapped) value of HardLight's `lite` intermediate
`sa*da - ((da-d)*(sa-s) << 1)` on a color channel, as an integer: the
inner factors are the narrow-lane differences (plain subtractions under
the premul invariant). -/
def hardLightLiteRaw (sa da sc dc : Nat) : Int :=
  (sa * da : Int) - 2 * (((da - dc) * (sa - sc) : Nat) : Int)

/-- The raw (unwrapped) value of HardLight's `dark` intermediate
`(s*d) << 1` on a color channel. -/
def hardLightDarkRaw (sc dc : Nat) : Nat := 2 * (sc * dc)

/-- HardLight's per-channel lightness test `(sa - s) < s` (narrow lanes). -/
def hardLightIsLite (sa sc : Nat) : Bool := decide (sa - sc < sc)

/-- The raw value of HardLight's `both` intermediate `s*~da + d*~sa` on a
color channel. -/
def hardLightBothRaw (sa da sc dc : Nat) : Nat :=
  sc * (255 - da) + dc * (255 - sa)

/-! ### Channel-level arithmetic lemmas -/

theorem addN_eq {x y : Nat} (h : x + y ≤ 255) : addN x y = x + y := by
  unfold addN; omega

theorem subN_eq {x y : Nat} (hy : y ≤ x) (hx : x ≤ 255) : subN x y = x - y := by
  unfold subN; omega

theorem addW_eq {x y : Nat} (h : x + y ≤ 65535) : addW x y = x + y := by
  unfold addW; omega

theorem subW_eq {x y : Nat} (hy : y ≤ x) (hx : x ≤ 65535) : subW x y = x - y := by
  unfold subW; omega

theorem mulW_eq {x y : Nat} (hx : x ≤ 255) (hy : y ≤ 255) : mulW x y = x * y := by
  unfold mulW
  exact Nat.mod_eq_of_lt (lt_of_le_of_lt (Nat.mul_le_mul hx hy) (by norm_num))

theorem shlW_eq {x : Nat} (h : 2 * x ≤ 65535) : shlW x = 2 * x := by
  unfold shlW; omega

theorem amd255C_mono_left {x y m : Nat} (h : x ≤ y) :
    amd255C x m ≤ amd255C y m := by
  unfold amd255C
  have := Nat.mul_le_mul_right m h
  omega

theorem amd255C_mono_right {x m n : Nat} (h : m ≤ n) :
    amd255C x m ≤ amd255C x n := by
  unfold amd255C
  have := Nat.mul_le_mul_left x h
  omega

theorem amd255C_le_left {x m : Nat} (hm : m ≤ 255) : amd255C x m ≤ x := by
  unfold amd255C
  have := Nat.mul_le_mul_left x hm
  omega

theorem amd255C_le_right {x m : Nat} (hx : x ≤ 255) : amd255C x m ≤ m := by
  unfold amd255C
  have := Nat.mul_le_mul_right m hx
  omega

theorem amd255C_zero_left (m : Nat) : amd255C 0 m = 0 := by
  unfold amd255C; omega

theorem amd255C_zero_right {x : Nat} (hx : x ≤ 255) : amd255C x 0 = 0 := by
  unfold amd255C; omega

theorem amd255C_255_right (x : Nat) : amd255C x 255 = x := by
  unfold amd255C; omega

theorem div255C_le {x y : Nat} (h : x ≤ 255 * y) : div255C x ≤ y := by
  unfold div255C; omega

theorem div255C_mono {x y : Nat} (h : x ≤ y) : div255C x ≤ div255C y := by
  unfold div255C; omega

theorem div255C_mul_255 (y : Nat) : div255C (255 * y) = y := by
  unfold div255C; omega

theorem div255C_shift {x y k : Nat} (h : x ≤ y + 255 * k) :
    div255C x ≤ div255C y + k := by
  unfold div255C; omega

theorem invC_le (x : Nat) : invC x ≤ 255 := by
  unfold invC; omega

/-! ### Per-channel bounds for each kernel -/

theorem srcover_chan {sa da x y : Nat} (hx : x ≤ sa) (hy : y ≤ da)
    (hsa : sa ≤ 255) (hda : da ≤ 255) :
    addN x (amd255C y (invC sa)) ≤ addN sa (amd255C da (invC sa)) ∧
      addN sa (amd255C da (invC sa)) ≤ 255 := by
  unfold addN amd255C invC
  have h1 : y * (255 - sa) ≤ da * (255 - sa) := Nat.mul_le_mul_right _ hy
  have h2 : da * (255 - sa) ≤ 255 * (255 - sa) := Nat.mul_le_mul_right _ hda
  omega

theorem screen_chan {sa da x y : Nat} (hx : x ≤ sa) (hy : y ≤ da)
    (hsa : sa ≤ 255) (hda : da ≤ 255) :
    addN x (amd255C y (invC x)) ≤ addN sa (amd255C da (invC sa)) ∧
      addN sa (amd255C da (invC sa)) ≤ 255 := by
  unfold addN amd255C invC
  have h1 : y * (255 - x) ≤ da * (255 - x) := Nat.mul_le_mul_right _ hy
  have h2 : da * (255 - x) ≤ da * (255 - sa) + da * (sa - x) := by
    have e : 255 - x = (255 - sa) + (sa - x) := by omega
    rw [e, Nat.mul_add]
  have h3 : da * (sa - x) ≤ 255 * (sa - x) := Nat.mul_le_mul_right _ hda
  have h4 : da * (255 - sa) ≤ 255 * (255 - sa) := Nat.mul_le_mul_right _ hda
  omega

theorem amd255C_shift_left {x y m : Nat} (h : x ≤ y) (hm : m ≤ 255) :
    amd255C y m ≤ (y - x) + amd255C x m := by
  unfold amd255C
  have e : y * m = x * m + (y - x) * m := by
    rw [← Nat.add_mul]; congr 1; omega
  have hS : (y - x) * m ≤ (y - x) * 255 := Nat.mul_le_mul_left _ hm
  omega

theorem amd255C_shift_right {x m n : Nat} (h : m ≤ n) (hx : x ≤ 255) :
    amd255C x n ≤ (n - m) + amd255C x m := by
  unfold amd255C
  have e : x * n = x * m + x * (n - m) := by
    rw [← Nat.mul_add]; congr 1; omega
  have hS : x * (n - m) ≤ 255 * (n - m) := Nat.mul_le_mul_right _ hx
  omega

theorem amd255C_ge_sum {x m : Nat} (hx : x ≤ 255) (hm : m ≤ 255) :
    x + m ≤ 255 + amd255C x m := by
  unfold amd255C
  have t1 : m * (255 - x) ≤ 255 * (255 - x) := Nat.mul_le_mul_right _ hm
  have t2 : m * (255 - x) + m * x = m * 255 := by
    rw [← Nat.mul_add]; congr 1; omega
  have t3 : m * x = x * m := Nat.mul_comm m x
  omega

theorem div255C_ge_sum {x m : Nat} (hx : x ≤ 255) (hm : m ≤ 255) :
    x + m ≤ 255 + div255C (x * m) := by
  unfold div255C
  have t1 : m * (255 - x) ≤ 255 * (255 - x) := Nat.mul_le_mul_right _ hm
  have t2 : m * (255 - x) + m * x = m * 255 := by
    rw [← Nat.mul_add]; congr 1; omega
  have t3 : m * x = x * m := Nat.mul_comm m x
  omega

theorem srcatop_chan {sa da x y : Nat} (hx : x ≤ sa) (hy : y ≤ da)
    (hsa : sa ≤ 255) (hda : da ≤ 255) :
    div255C (addW (mulW x da) (mulW y (invC sa))) ≤
        div255C (addW (mulW sa da) (mulW da (invC sa))) ∧
      div255C (addW (mulW sa da) (mulW da (invC sa))) = da := by
  rw [mulW_eq (le_trans hx hsa) hda, mulW_eq (le_trans hy hda) (invC_le sa),
    mulW_eq hsa hda, mulW_eq hda (invC_le sa)]
  unfold invC
  have h1 : x * da ≤ sa * da := Nat.mul_le_mul_right _ hx
  have h2 : y * (255 - sa) ≤ da * (255 - sa) := Nat.mul_le_mul_right _ hy
  have h3 : sa * da + da * (255 - sa) = 255 * da := by
    have e : da * sa + da * (255 - sa) = da * 255 := by
      rw [← Nat.mul_add]; congr 1; omega
    have c : da * sa = sa * da := Nat.mul_comm da sa
    omega
  rw [addW_eq (by omega), addW_eq (by omega)]
  constructor
  · exact div255C_mono (by omega)
  · rw [h3, div255C_mul_255]

theorem xor_chan {sa da x y : Nat} (hx : x ≤ sa) (hy : y ≤ da)
    (hsa : sa ≤ 255) (hda : da ≤ 255) :
    div255C (addW (mulW x (invC da)) (mulW y (invC sa))) ≤
        div255C (addW (mulW sa (invC da)) (mulW da (invC sa))) ∧
      div255C (addW (mulW sa (invC da)) (mulW da (invC sa))) ≤ 255 := by
  rw [mulW_eq (le_trans hx hsa) (invC_le da),
    mulW_eq (le_trans hy hda) (invC_le sa),
    mulW_eq hsa (invC_le da), mulW_eq hda (invC_le sa)]
  unfold invC
  have h1 : x * (255 - da) ≤ sa * (255 - da) := Nat.mul_le_mul_right _ hx
  have h2 : y * (255 - sa) ≤ da * (255 - sa) := Nat.mul_le_mul_right _ hy
  have h3 : da * (255 - sa) ≤ da * 255 := Nat.mul_le_mul_left _ (by omega)
  have h4 : sa * (255 - da) ≤ sa * 255 := Nat.mul_le_mul_left _ (by omega)
  have h5 : sa * (255 - da) ≤ 255 * (255 - da) := Nat.mul_le_mul_right _ hsa
  have h6 : da * (255 - sa) ≤ 255 * (255 - sa) := Nat.mul_le_mul_right _ hda
  rw [addW_eq (by omega), addW_eq (by omega)]
  constructor
  · exact div255C_mono (by omega)
  · exact div255C_le (by omega)

theorem multiply_chan {sa da x y : Nat} (hx : x ≤ sa) (hy : y ≤ da)
    (hsa : sa ≤ 255) (hda : da ≤ 255) :
    div255C (addW (addW (mulW x (invC da)) (mulW y (invC sa))) (mulW x y)) ≤
        div255C (addW (addW (mulW sa (invC da)) (mulW da (invC sa)))
          (mulW sa da)) ∧
      div255C (addW (addW (mulW sa (invC da)) (mulW da (invC sa)))
        (mulW sa da)) ≤ 255 := by
  rw [mulW_eq (le_trans hx hsa) (invC_le da),
    mulW_eq (le_trans hy hda) (invC_le sa),
    mulW_eq hsa (invC_le da), mulW_eq hda (invC_le sa),
    mulW_eq (le_trans hx hsa) (le_trans hy hda), mulW_eq hsa hda]
  unfold invC
  have h1 : x * (255 - da) ≤ sa * (255 - da) := Nat.mul_le_mul_right _ hx
  have h2 : y * (255 - sa) ≤ da * (255 - sa) := Nat.mul_le_mul_right _ hy
  have hb : x * y ≤ sa * da := Nat.mul_le_mul hx hy
  have e1 : sa * (255 - da) + sa * da = sa * 255 := by
    rw [← Nat.mul_add]; congr 1; omega
  have e2 : da * (255 - sa) + da * sa = da * 255 := by
    rw [← Nat.mul_add]; congr 1; omega
  have e3 : sa * da = da * sa := Nat.mul_comm sa da
  have h3 : da * (255 - sa) ≤ 255 * (255 - sa) := Nat.mul_le_mul_right _ hda
  have ei1 : addW (x * (255 - da)) (y * (255 - sa)) =
      x * (255 - da) + y * (255 - sa) := addW_eq (by omega)
  have ei2 : addW (sa * (255 - da)) (da * (255 - sa)) =
      sa * (255 - da) + da * (255 - sa) := addW_eq (by omega)
  rw [ei1, ei2, addW_eq (by omega), addW_eq (by omega)]
  constructor
  · exact div255C_mono (by omega)
  · exact div255C_le (by omega)

theorem difference_chan {sa da x y : Nat} (hx : x ≤ sa) (hy : y ≤ da)
    (hsa : sa ≤ 255) (hda : da ≤ 255) :
    addN (subN x (div255C (min (mulW x da) (mulW y sa))))
        (subN y (div255C (min (mulW x da) (mulW y sa)))) ≤
      addN (subN sa (div255C (min (mulW sa da) (mulW da sa)))) (subN da 0) ∧
    addN (subN sa (div255C (min (mulW sa da) (mulW da sa)))) (subN da 0)
      ≤ 255 := by
  rw [mulW_eq (le_trans hx hsa) hda, mulW_eq (le_trans hy hda) hsa,
    mulW_eq hsa hda, mulW_eq hda hsa, mul_comm da sa, min_self]
  have hP : x * da ≤ x * 255 := Nat.mul_le_mul_left _ hda
  have hQ : y * sa ≤ y * 255 := Nat.mul_le_mul_left _ hsa
  have hR : sa * da ≤ sa * 255 := Nat.mul_le_mul_left _ hda
  have hmx : div255C (min (x * da) (y * sa)) ≤ x :=
    div255C_le (by have := min_le_left (x * da) (y * sa); omega)
  have hmy : div255C (min (x * da) (y * sa)) ≤ y :=
    div255C_le (by have := min_le_right (x * da) (y * sa); omega)
  have hma : div255C (sa * da) ≤ sa := div255C_le (by omega)
  have hge : sa + da ≤ 255 + div255C (sa * da) := div255C_ge_sum hsa hda
  have key : div255C (sa * da) ≤
      div255C (min (x * da) (y * sa)) + ((sa - x) + (da - y)) := by
    rcases Nat.le_total (x * da) (y * sa) with h | h
    · rw [Nat.min_eq_left h]
      have e : sa * da = x * da + (sa - x) * da := by
        rw [← Nat.add_mul]; congr 1; omega
      have hS : (sa - x) * da ≤ (sa - x) * 255 := Nat.mul_le_mul_left _ hda
      have := div255C_shift (x := sa * da) (y := x * da) (k := sa - x)
        (by omega)
      omega
    · rw [Nat.min_eq_right h]
      have e : sa * da = sa * y + sa * (da - y) := by
        rw [← Nat.mul_add]; congr 1; omega
      have hc : sa * y = y * sa := Nat.mul_comm sa y
      have hS : sa * (da - y) ≤ 255 * (da - y) := Nat.mul_le_mul_right _ hsa
      have := div255C_shift (x := sa * da) (y := y * sa) (k := da - y)
        (by omega)
      omega
  rw [subN_eq hmx (by omega), subN_eq hmy (by omega), subN_eq hma hsa,
    subN_eq (Nat.zero_le da) hda, addN_eq (by omega), addN_eq (by omega)]
  omega

theorem exclusion_chan {sa da x y : Nat} (hx : x ≤ sa) (hy : y ≤ da)
    (hsa : sa ≤ 255) (hda : da ≤ 255) :
    addN (subN x (amd255C x y)) (subN y (amd255C x y)) ≤
      addN (subN sa (amd255C sa da)) (subN da 0) ∧
    addN (subN sa (amd255C sa da)) (subN da 0) ≤ 255 := by
  have h1 : amd255C x y ≤ x := amd255C_le_left (by omega)
  have h2 : amd255C x y ≤ y := amd255C_le_right (by omega)
  have h3 : amd255C sa da ≤ sa := amd255C_le_left hda
  have h4 : sa + da ≤ 255 + amd255C sa da := amd255C_ge_sum hsa hda
  have h5 : amd255C sa da ≤ (sa - x) + amd255C x da := amd255C_shift_left hx hda
  have h6 : amd255C x da ≤ (da - y) + amd255C x y :=
    amd255C_shift_right hy (by omega)
  rw [subN_eq h1 (by omega), subN_eq h2 (by omega), subN_eq h3 hsa,
    subN_eq (Nat.zero_le da) hda, addN_eq (by omega), addN_eq (by omega)]
  omega

theorem addN_le (x y : Nat) : addN x y ≤ 255 := by
  unfold addN; omega

theorem addN_zero_left {t : Nat} (h : t ≤ 255) : addN 0 t = t := by
  unfold addN; omega

theorem addN_zero_right {t : Nat} (h : t ≤ 255) : addN t 0 = t := by
  unfold addN; omega

theorem div255C_le_255 {x : Nat} (h : x ≤ 65025) : div255C x ≤ 255 := by
  unfold div255C; omega

theorem darken_chan {sa da x y : Nat} (hx : x ≤ sa) (hy : y ≤ da)
    (hsa : sa ≤ 255) (hda : da ≤ 255) (c : Bool) :
    addN 0 (bif c then addN x (div255C (mulW y (invC sa)))
        else addN y (div255C (mulW x (invC da)))) ≤
      addN (addN sa (div255C (mulW da (invC sa)))) 0 ∧
    addN (addN sa (div255C (mulW da (invC sa)))) 0 ≤ 255 := by
  rw [mulW_eq (le_trans hy hda) (invC_le sa),
    mulW_eq (le_trans hx hsa) (invC_le da), mulW_eq hda (invC_le sa)]
  unfold invC
  have h1 : y * (255 - sa) ≤ da * (255 - sa) := Nat.mul_le_mul_right _ hy
  have t1 : da * (255 - sa) ≤ 255 * (255 - sa) := Nat.mul_le_mul_right _ hda
  have h2 : x * (255 - da) ≤ sa * (255 - da) := Nat.mul_le_mul_right _ hx
  have t2 : sa * (255 - da) ≤ 255 * (255 - da) := Nat.mul_le_mul_right _ hsa
  have hDda : div255C (da * (255 - sa)) ≤ 255 - sa := div255C_le (by omega)
  have hDsa : div255C (sa * (255 - da)) ≤ 255 - da := div255C_le (by omega)
  have hDy : div255C (y * (255 - sa)) ≤ div255C (da * (255 - sa)) :=
    div255C_mono h1
  have hDx : div255C (x * (255 - da)) ≤ div255C (sa * (255 - da)) :=
    div255C_mono h2
  have e1 : sa * (255 - da) + sa * da = sa * 255 := by
    rw [← Nat.mul_add]; congr 1; omega
  have e2 : da * (255 - sa) + da * sa = da * 255 := by
    rw [← Nat.mul_add]; congr 1; omega
  have e3 : sa * da = da * sa := Nat.mul_comm sa da
  have idt : da + div255C (sa * (255 - da)) =
      sa + div255C (da * (255 - sa)) := by
    unfold div255C; omega
  have hR : addN (addN sa (div255C (da * (255 - sa)))) 0 =
      sa + div255C (da * (255 - sa)) := by
    rw [addN_zero_right (addN_le _ _), addN_eq (by omega)]
  have hA : addN x (div255C (y * (255 - sa))) ≤
      sa + div255C (da * (255 - sa)) := by
    rw [addN_eq (by omega)]; omega
  have hB2 : addN y (div255C (x * (255 - da))) ≤
      sa + div255C (da * (255 - sa)) := by
    rw [addN_eq (by omega)]; omega
  rw [hR]
  refine ⟨?_, by omega⟩
  cases c
  · show addN 0 (addN y (div255C (x * (255 - da)))) ≤
      sa + div255C (da * (255 - sa))
    rw [addN_zero_left (addN_le _ _)]; exact hB2
  · show addN 0 (addN x (div255C (y * (255 - sa)))) ≤
      sa + div255C (da * (255 - sa))
    rw [addN_zero_left (addN_le _ _)]; exact hA

theorem hardlight_chan {sa da x y : Nat} (hx : x ≤ sa) (hy : y ≤ da)
    (hsa : sa ≤ 255) (hda : da ≤ 255) :
    addN 0 (div255C (addW (addW (mulW x (invC da)) (mulW y (invC sa)))
        (bif decide (subN sa x < x) then
          subW (mulW sa da) (shlW (mulW (subN da y) (subN sa x)))
        else shlW (mulW x y)))) ≤
      addN (addN sa (div255C (mulW da (invC sa)))) 0 ∧
    addN (addN sa (div255C (mulW da (invC sa)))) 0 ≤ 255 := by
  obtain ⟨u, rfl⟩ : ∃ u, sa = x + u := ⟨sa - x, by omega⟩
  obtain ⟨v, rfl⟩ : ∃ v, da = y + v := ⟨da - y, by omega⟩
  have es : subN (x + u) x = u := by unfold subN; omega
  have ed : subN (y + v) y = v := by unfold subN; omega
  rw [es, ed, mulW_eq (show v ≤ 255 by omega) (show u ≤ 255 by omega),
    mulW_eq hsa hda, mulW_eq (show x ≤ 255 by omega) (invC_le _),
    mulW_eq (show y ≤ 255 by omega) (invC_le _),
    mulW_eq hda (invC_le _),
    mulW_eq (show x ≤ 255 by omega) (show y ≤ 255 by omega)]
  unfold invC
  have E1 : (x + u) * (y + v) = x * y + x * v + u * y + u * v := by ring
  have E2 : x * (255 - (y + v)) + (x * y + x * v) = 255 * x := by
    have h' : x * (255 - (y + v)) + x * (y + v) = x * 255 := by
      rw [← Nat.mul_add]; congr 1; omega
    have e : x * (y + v) = x * y + x * v := by ring
    omega
  have E4 : y * (255 - (x + u)) + (x * y + u * y) = 255 * y := by
    have h' : y * (255 - (x + u)) + y * (x + u) = y * 255 := by
      rw [← Nat.mul_add]; congr 1; omega
    have e : y * (x + u) = x * y + u * y := by ring
    omega
  have E6 : (y + v) * (255 - (x + u)) + (x + u) * (y + v) =
      255 * (y + v) := by
    have h' : (y + v) * (255 - (x + u)) + (y + v) * (x + u) =
        (y + v) * 255 := by
      rw [← Nat.mul_add]; congr 1; omega
    have e : (y + v) * (x + u) = (x + u) * (y + v) := by ring
    omega
  have t1 : (y + v) * (255 - (x + u)) ≤ 255 * (255 - (x + u)) :=
    Nat.mul_le_mul_right _ hda
  have ha6 : x * v ≤ 255 * v := Nat.mul_le_mul_right _ (by omega)
  have ha9 : u * v ≤ 255 * v := Nat.mul_le_mul_right _ (by omega)
  have ha11 : u * y ≤ u * 255 := Nat.mul_le_mul_left _ (by omega)
  have hxy : x * y ≤ x * 255 := Nat.mul_le_mul_left _ (by omega)
  have hcm : v * u = u * v := Nat.mul_comm v u
  have hc2 : y * (255 - (x + u)) ≤ 255 * (255 - (x + u)) :=
    Nat.mul_le_mul_right _ (by omega)
  have hEa : y * (255 - x) ≤ 255 * (255 - x) :=
    Nat.mul_le_mul_right _ (by omega)
  have hEb : y * (255 - x) + y * x = y * 255 := by
    rw [← Nat.mul_add]; congr 1; omega
  have hEc : y * x = x * y := Nat.mul_comm y x
  have hDda : div255C ((y + v) * (255 - (x + u))) ≤ 255 - (x + u) :=
    div255C_le (by omega)
  have hR : addN (addN (x + u) (div255C ((y + v) * (255 - (x + u))))) 0 =
      (x + u) + div255C ((y + v) * (255 - (x + u))) := by
    rw [addN_zero_right (addN_le _ _), addN_eq (by omega)]
  rw [hR]
  refine ⟨?_, by omega⟩
  have hbE : addW (x * (255 - (y + v))) (y * (255 - (x + u))) =
      x * (255 - (y + v)) + y * (255 - (x + u)) := addW_eq (by omega)
  rw [hbE]
  rcases Nat.lt_or_ge u x with hL | hL
  · rw [decide_eq_true hL, cond_true]
    have hvu : 2 * (v * u) ≤ (x + u) * (y + v) := by
      have c2 : u * v ≤ x * v := Nat.mul_le_mul_right _ (by omega)
      omega
    have hfit : (x + u) * (y + v) ≤ 65025 := by
      have := Nat.mul_le_mul hsa hda; omega
    rw [shlW_eq (by omega), subW_eq (by omega) (by omega),
      addW_eq (by omega), addN_zero_left (div255C_le_255 (by omega))]
    unfold div255C
    omega
  · rw [decide_eq_false (by omega), cond_false]
    have h2xy : 2 * (x * y) ≤ 65535 := by omega
    rw [shlW_eq h2xy, addW_eq (by omega),
      addN_zero_left (div255C_le_255 (by omega))]
    unfold div255C
    omega

theorem satAddC_mono {x y z w : Nat} (h1 : x ≤ z) (h2 : y ≤ w) :
    satAddC x y ≤ satAddC z w := by
  unfold satAddC; omega

theorem satAddC_le (x y : Nat) : satAddC x y ≤ 255 := by
  unfold satAddC; omega

/-! ### Premultiplication preservation, mode by mode -/

theorem premul_Clear {s d : Pixel} : Premul (Clear s d) :=
  ⟨Nat.le_refl 0, Nat.le_refl 0, Nat.le_refl 0, Nat.zero_le 255⟩

theorem premul_Src {s d : Pixel} (hs : Premul s) : Premul (Src s d) := hs

theorem premul_Dst {s d : Pixel} (hd : Premul d) : Premul (Dst s d) := hd

theorem premul_SrcIn {s d : Pixel} (hs : Premul s) (hd : Premul d) :
    Premul (SrcIn s d) := by
  obtain ⟨hb, hg, hr, ha⟩ := hs
  obtain ⟨-, -, -, hda⟩ := hd
  exact ⟨amd255C_mono_left hb, amd255C_mono_left hg, amd255C_mono_left hr,
    le_trans (amd255C_le_left hda) ha⟩

theorem premul_SrcOut {s d : Pixel} (hs : Premul s) (_hd : Premul d) :
    Premul (SrcOut s d) := by
  obtain ⟨hb, hg, hr, ha⟩ := hs
  exact ⟨amd255C_mono_left hb, amd255C_mono_left hg, amd255C_mono_left hr,
    le_trans (amd255C_le_left (invC_le d.a)) ha⟩

theorem premul_SrcOver {s d : Pixel} (hs : Premul s) (hd : Premul d) :
    Premul (SrcOver s d) := by
  obtain ⟨hb, hg, hr, ha⟩ := hs
  obtain ⟨hdb, hdg, hdr, hda⟩ := hd
  exact ⟨(srcover_chan hb hdb ha hda).1, (srcover_chan hg hdg ha hda).1,
    (srcover_chan hr hdr ha hda).1, (srcover_chan hb hdb ha hda).2⟩

theorem premul_DstIn {s d : Pixel} (hs : Premul s) (hd : Premul d) :
    Premul (DstIn s d) := premul_SrcIn hd hs

theorem premul_DstOut {s d : Pixel} (hs : Premul s) (hd : Premul d) :
    Premul (DstOut s d) := premul_SrcOut hd hs

theorem premul_DstOver {s d : Pixel} (hs : Premul s) (hd : Premul d) :
    Premul (DstOver s d) := premul_SrcOver hd hs

theorem premul_SrcATop {s d : Pixel} (hs : Premul s) (hd : Premul d) :
    Premul (SrcATop s d) := by
  obtain ⟨hb, hg, hr, ha⟩ := hs
  obtain ⟨hdb, hdg, hdr, hda⟩ := hd
  have hA := (srcatop_chan (le_refl s.a) (le_refl d.a) ha hda).2
  exact ⟨(srcatop_chan hb hdb ha hda).1, (srcatop_chan hg hdg ha hda).1,
    (srcatop_chan hr hdr ha hda).1, le_trans (le_of_eq hA) hda⟩

theorem premul_DstATop {s d : Pixel} (hs : Premul s) (hd : Premul d) :
    Premul (DstATop s d) := premul_SrcATop hd hs

theorem premul_Xor {s d : Pixel} (hs : Premul s) (hd : Premul d) :
    Premul (Xor s d) := by
  obtain ⟨hb, hg, hr, ha⟩ := hs
  obtain ⟨hdb, hdg, hdr, hda⟩ := hd
  exact ⟨(xor_chan hb hdb ha hda).1, (xor_chan hg hdg ha hda).1,
    (xor_chan hr hdr ha hda).1, (xor_chan hb hdb ha hda).2⟩

theorem premul_Plus {s d : Pixel} (hs : Premul s) (hd : Premul d) :
    Premul (Plus s d) := by
  obtain ⟨hb, hg, hr, ha⟩ := hs
  obtain ⟨hdb, hdg, hdr, hda⟩ := hd
  exact ⟨satAddC_mono hb hdb, satAddC_mono hg hdg, satAddC_mono hr hdr,
    satAddC_le _ _⟩

theorem premul_Modulate {s d : Pixel} (hs : Premul s) (hd : Premul d) :
    Premul (Modulate s d) := by
  obtain ⟨hb, hg, hr, ha⟩ := hs
  obtain ⟨hdb, hdg, hdr, hda⟩ := hd
  exact ⟨le_trans (amd255C_mono_left hb) (amd255C_mono_right hdb),
    le_trans (amd255C_mono_left hg) (amd255C_mono_right hdg),
    le_trans (amd255C_mono_left hr) (amd255C_mono_right hdr),
    le_trans (amd255C_le_left hda) ha⟩

theorem premul_Screen {s d : Pixel} (hs : Premul s) (hd : Premul d) :
    Premul (Screen s d) := by
  obtain ⟨hb, hg, hr, ha⟩ := hs
  obtain ⟨hdb, hdg, hdr, hda⟩ := hd
  exact ⟨(screen_chan hb hdb ha hda).1, (screen_chan hg hdg ha hda).1,
    (screen_chan hr hdr ha hda).1, (screen_chan hb hdb ha hda).2⟩

theorem premul_Multiply {s d : Pixel} (hs : Premul s) (hd : Premul d) :
    Premul (Multiply s d) := by
  obtain ⟨hb, hg, hr, ha⟩ := hs
  obtain ⟨hdb, hdg, hdr, hda⟩ := hd
  exact ⟨(multiply_chan hb hdb ha hda).1, (multiply_chan hg hdg ha hda).1,
    (multiply_chan hr hdr ha hda).1, (multiply_chan hb hdb ha hda).2⟩

theorem premul_Difference {s d : Pixel} (hs : Premul s) (hd : Premul d) :
    Premul (Difference s d) := by
  obtain ⟨hb, hg, hr, ha⟩ := hs
  obtain ⟨hdb, hdg, hdr, hda⟩ := hd
  exact ⟨(difference_chan hb hdb ha hda).1, (difference_chan hg hdg ha hda).1,
    (difference_chan hr hdr ha hda).1, (difference_chan hb hdb ha hda).2⟩

theorem premul_Exclusion {s d : Pixel} (hs : Premul s) (hd : Premul d) :
    Premul (Exclusion s d) := by
  obtain ⟨hb, hg, hr, ha⟩ := hs
  obtain ⟨hdb, hdg, hdr, hda⟩ := hd
  exact ⟨(exclusion_chan hb hdb ha hda).1, (exclusion_chan hg hdg ha hda).1,
    (exclusion_chan hr hdr ha hda).1, (exclusion_chan hb hdb ha hda).2⟩

theorem premul_HardLight {s d : Pixel} (hs : Premul s) (hd : Premul d) :
    Premul (HardLight s d) := by
  obtain ⟨hb, hg, hr, ha⟩ := hs
  obtain ⟨hdb, hdg, hdr, hda⟩ := hd
  exact ⟨(hardlight_chan hb hdb ha hda).1, (hardlight_chan hg hdg ha hda).1,
    (hardlight_chan hr hdr ha hda).1, (hardlight_chan hb hdb ha hda).2⟩

theorem premul_Overlay {s d : Pixel} (hs : Premul s) (hd : Premul d) :
    Premul (Overlay s d) := premul_HardLight hd hs

theorem premul_Darken {s d : Pixel} (hs : Premul s) (hd : Premul d) :
    Premul (Darken s d) := by
  obtain ⟨hb, hg, hr, ha⟩ := hs
  obtain ⟨hdb, hdg, hdr, hda⟩ := hd
  exact ⟨(darken_chan hb hdb ha hda _).1, (darken_chan hg hdg ha hda _).1,
    (darken_chan hr hdr ha hda _).1, (darken_chan hb hdb ha hda true).2⟩

theorem premul_Lighten {s d : Pixel} (hs : Premul s) (hd : Premul d) :
    Premul (Lighten s d) := by
  obtain ⟨hb, hg, hr, ha⟩ := hs
  obtain ⟨hdb, hdg, hdr, hda⟩ := hd
  exact ⟨(darken_chan hb hdb ha hda _).1, (darken_chan hg hdg ha hda _).1,
    (darken_chan hr hdr ha hda _).1, (darken_chan hb hdb ha hda true).2⟩

theorem premul_xfer (m : Mode) {s d : Pixel} (hs : Premul s)
    (hd : Premul d) : Premul (xfer m s d) := by
  cases m
  case Clear => exact @premul_Clear s d
  case Src => exact @premul_Src s d hs
  case Dst => exact @premul_Dst s d hd
  case SrcOver => exact premul_SrcOver hs hd
  case DstOver => exact premul_DstOver hs hd
  case SrcIn => exact premul_SrcIn hs hd
  case DstIn => exact premul_DstIn hs hd
  case SrcOut => exact premul_SrcOut hs hd
  case DstOut => exact premul_DstOut hs hd
  case SrcATop => exact premul_SrcATop hs hd
  case DstATop => exact premul_DstATop hs hd
  case Xor => exact premul_Xor hs hd
  case Plus => exact premul_Plus hs hd
  case Modulate => exact premul_Modulate hs hd
  case Screen => exact premul_Screen hs hd
  case Multiply => exact premul_Multiply hs hd
  case Difference => exact premul_Difference hs hd
  case Exclusion => exact premul_Exclusion hs hd
  case HardLight => exact premul_HardLight hs hd
  case Overlay => exact premul_Overlay hs hd
  case Darken => exact premul_Darken hs hd
  case Lighten => exact premul_Lighten hs hd

theorem pixel_ext {p q : Pixel} (hb : p.b = q.b) (hg : p.g = q.g)
    (hr : p.r = q.r) (ha : p.a = q.a) : p = q := by
  have e : p = ⟨p.b, p.g, p.r, p.a⟩ := rfl
  rw [e, hb, hg, hr, ha]

/-! ### Exact alpha identities for the exact-math kernels -/

theorem alpha_srcover {sa da : Nat} (hsa : sa ≤ 255) (hda : da ≤ 255) :
    addN (addN sa (div255C (mulW da (invC sa)))) 0 =
      sa + da - div255C (sa * da) := by
  rw [mulW_eq hda (invC_le sa)]
  unfold invC
  have t1 : da * (255 - sa) ≤ 255 * (255 - sa) := Nat.mul_le_mul_right _ hda
  have t2 : da * (255 - sa) + da * sa = da * 255 := by
    rw [← Nat.mul_add]; congr 1; omega
  have t3 : da * sa = sa * da := Nat.mul_comm da sa
  have hD : div255C (da * (255 - sa)) ≤ 255 - sa := div255C_le (by omega)
  rw [addN_zero_right (addN_le _ _), addN_eq (by omega)]
  unfold div255C
  omega

theorem alpha_multiply {sa da : Nat} (hsa : sa ≤ 255) (hda : da ≤ 255) :
    div255C (addW (addW (mulW sa (invC da)) (mulW da (invC sa)))
      (mulW sa da)) = sa + da - div255C (sa * da) := by
  rw [mulW_eq hsa (invC_le da), mulW_eq hda (invC_le sa), mulW_eq hsa hda]
  unfold invC
  have e1 : sa * (255 - da) + sa * da = sa * 255 := by
    rw [← Nat.mul_add]; congr 1; omega
  have e2 : da * (255 - sa) + da * sa = da * 255 := by
    rw [← Nat.mul_add]; congr 1; omega
  have e3 : sa * da = da * sa := Nat.mul_comm sa da
  have h3 : da * (255 - sa) ≤ 255 * (255 - sa) := Nat.mul_le_mul_right _ hda
  have hq : sa * da ≤ sa * 255 := Nat.mul_le_mul_left _ hda
  have ei : addW (sa * (255 - da)) (da * (255 - sa)) =
      sa * (255 - da) + da * (255 - sa) := addW_eq (by omega)
  rw [ei, addW_eq (by omega)]
  unfold div255C
  omega

theorem alpha_difference {sa da : Nat} (hsa : sa ≤ 255) (hda : da ≤ 255) :
    addN (subN sa (div255C (min (mulW sa da) (mulW da sa)))) (subN da 0) =
      sa + da - div255C (sa * da) := by
  rw [mulW_eq hsa hda, mulW_eq hda hsa, mul_comm da sa, min_self]
  have hq : sa * da ≤ sa * 255 := Nat.mul_le_mul_left _ hda
  have hma : div255C (sa * da) ≤ sa := div255C_le (by omega)
  have hge : sa + da ≤ 255 + div255C (sa * da) := div255C_ge_sum hsa hda
  rw [subN_eq hma hsa, subN_eq (Nat.zero_le da) hda, addN_eq (by omega)]
  omega

theorem alpha_exclusion {sa da : Nat} (hsa : sa ≤ 255) (hda : da ≤ 255) :
    addN (subN sa (amd255C sa da)) (subN da 0) =
      sa + da - amd255C sa da := by
  have h3 : amd255C sa da ≤ sa := amd255C_le_left hda
  have h4 : sa + da ≤ 255 + amd255C sa da := amd255C_ge_sum hsa hda
  rw [subN_eq h3 hsa, subN_eq (Nat.zero_le da) hda, addN_eq (by omega)]
  omega

/-! ### Endpoint behavior of the generic coverage wrapper -/

theorem genericAA_full {m : Mode} {s d : Pixel} (hs : Premul s)
    (hd : Premul d) :
    xferAaGeneric m s d (Pixel.mk 255 255 255 255) = xfer m s d := by
  obtain ⟨hb, hg, hr, ha⟩ := premul_xfer m hs hd
  obtain ⟨-, -, -, hda⟩ := hd
  refine pixel_ext ?_ ?_ ?_ ?_ <;>
    · simp only [xferAaGeneric, Pixel.mulWiden, Wide.add, Wide.div255,
        Pixel.inv, invC, mulW, addW, div255C]
      omega

theorem genericAA_zero {m : Mode} {s d : Pixel} (hs : Premul s)
    (hd : Premul d) :
    xferAaGeneric m s d (Pixel.mk 0 0 0 0) = d := by
  obtain ⟨hb, hg, hr, ha⟩ := premul_xfer m hs hd
  obtain ⟨hdb, hdg, hdr, hda⟩ := hd
  refine pixel_ext ?_ ?_ ?_ ?_ <;>
    · simp only [xferAaGeneric, Pixel.mulWiden, Wide.add, Wide.div255,
        Pixel.inv, invC, mulW, addW, div255C]
      omega

/-! ### Claim theorems -/

/-- C1: for every supported blend kernel and every pair of premultiplied
input pixels, each color channel of the output is at most the output's
alpha channel (and the alpha is a valid byte): every kernel's output is
again premultiplied. -/
theorem C1_kernels_preserve_premul (m : Mode) (s d : Pixel)
    (hs : Premul s) (hd : Premul d) : Premul (xfer m s d) :=
  premul_xfer m hs hd

theorem C1_kernels_preserve_premul_witness :
    Premul (Pixel.mk 10 20 30 200) ∧ Premul (Pixel.mk 50 60 70 250) ∧
      Premul (xfer Mode.HardLight (Pixel.mk 10 20 30 200)
        (Pixel.mk 50 60 70 250)) :=
  ⟨by decide, by decide,
    C1_kernels_preserve_premul Mode.HardLight _ _ (by decide) (by decide)⟩

/-- C2 counterexample: the claim that every Wide intermediate of HardLight
fits in 16 bits without wrapping or underflow, including lanes where the
`isLite` mask is false, is false on premultiplied inputs.  At
s = d = (255,255,255,255) (a lane where `isLite` is true) the `dark`
intermediate `(s*d) << 1` is 130050 ≥ 2^16, and at s = d = (0,0,0,255)
(a color lane where `isLite` is false) the `lite` intermediate
`sa*da - ((da-d)*(sa-s) << 1)` is −65025 < 0. -/
theorem C2_wide_fit_counterexample :
    Premul (Pixel.mk 255 255 255 255) ∧
      hardLightIsLite 255 255 = true ∧
      ¬ hardLightDarkRaw 255 255 < 65536 ∧
      Premul (Pixel.mk 0 0 0 255) ∧
      hardLightIsLite 255 0 = false ∧
      ¬ 0 ≤ hardLightLiteRaw 255 255 0 0 := by
  decide

/-- C2 amended: on premultiplied inputs, the Wide intermediate actually
selected by HardLight's `thenElse` fits in 16 bits on every lane — in a
lane where `isLite` holds, `lite` is nonnegative and `both + lite` is at
most 65535; in a lane where `isLite` fails, `both + dark` is at most
65535 — and Difference's two `Min` arguments `s*da` and `d*sa` always
fit.  Lanes whose intermediate is discarded by the mask may wrap. -/
theorem C2_wide_fit_amended (sa da sc dc : Nat) (hsc : sc ≤ sa)
    (hdc : dc ≤ da) (hsa : sa ≤ 255) (hda : da ≤ 255) :
    (hardLightIsLite sa sc = true →
      0 ≤ hardLightLiteRaw sa da sc dc ∧
      (hardLightBothRaw sa da sc dc : Int) +
        hardLightLiteRaw sa da sc dc ≤ 65535) ∧
    (hardLightIsLite sa sc = false →
      hardLightBothRaw sa da sc dc + hardLightDarkRaw sc dc ≤ 65535) ∧
    sc * da ≤ 65025 ∧ dc * sa ≤ 65025 := by
  obtain ⟨u, rfl⟩ : ∃ u, sa = sc + u := ⟨sa - sc, by omega⟩
  obtain ⟨v, rfl⟩ : ∃ v, da = dc + v := ⟨da - dc, by omega⟩
  unfold hardLightIsLite hardLightLiteRaw hardLightDarkRaw hardLightBothRaw
  have es : (sc + u) - sc = u := by omega
  have ed : (dc + v) - dc = v := by omega
  rw [es, ed]
  have E1 : (sc + u) * (dc + v) = sc * dc + sc * v + u * dc + u * v := by
    ring
  have E2 : sc * (255 - (dc + v)) + (sc * dc + sc * v) = 255 * sc := by
    have h' : sc * (255 - (dc + v)) + sc * (dc + v) = sc * 255 := by
      rw [← Nat.mul_add]; congr 1; omega
    have e : sc * (dc + v) = sc * dc + sc * v := by ring
    omega
  have E4 : dc * (255 - (sc + u)) + (sc * dc + u * dc) = 255 * dc := by
    have h' : dc * (255 - (sc + u)) + dc * (sc + u) = dc * 255 := by
      rw [← Nat.mul_add]; congr 1; omega
    have e : dc * (sc + u) = sc * dc + u * dc := by ring
    omega
  have E6 : (dc + v) * (255 - (sc + u)) + (sc + u) * (dc + v) =
      255 * (dc + v) := by
    have h' : (dc + v) * (255 - (sc + u)) + (dc + v) * (sc + u) =
        (dc + v) * 255 := by
      rw [← Nat.mul_add]; congr 1; omega
    have e : (dc + v) * (sc + u) = (sc + u) * (dc + v) := by ring
    omega
  have t1 : (dc + v) * (255 - (sc + u)) ≤ 255 * (255 - (sc + u)) :=
    Nat.mul_le_mul_right _ hda
  have hcm : v * u = u * v := Nat.mul_comm v u
  have ha6 : sc * v ≤ 255 * v := Nat.mul_le_mul_right _ (by omega)
  have ha9 : u * v ≤ 255 * v := Nat.mul_le_mul_right _ (by omega)
  have ha11 : u * dc ≤ u * 255 := Nat.mul_le_mul_left _ (by omega)
  have hxy : sc * dc ≤ sc * 255 := Nat.mul_le_mul_left _ (by omega)
  refine ⟨?_, ?_, ?_, ?_⟩
  · intro h
    have hL : u < sc := by have := of_decide_eq_true h; omega
    have c2 : u * v ≤ sc * v := Nat.mul_le_mul_right _ (by omega)
    constructor
    · have : 2 * (v * u) ≤ (sc + u) * (dc + v) := by omega
      omega
    · omega
  · intro h
    have hL : sc ≤ u := by have := of_decide_eq_false h; omega
    omega
  · exact le_trans (Nat.mul_le_mul (show sc ≤ 255 by omega) hda)
      (by norm_num)
  · exact le_trans (Nat.mul_le_mul (show dc ≤ 255 by omega) hsa)
      (by norm_num)

theorem C2_wide_fit_amended_witness :
    (100 : Nat) ≤ 200 ∧ (50 : Nat) ≤ 150 ∧ (200 : Nat) ≤ 255 ∧
      (150 : Nat) ≤ 255 ∧
      ((hardLightIsLite 200 100 = true →
        0 ≤ hardLightLiteRaw 200 150 100 50 ∧
        (hardLightBothRaw 200 150 100 50 : Int) +
          hardLightLiteRaw 200 150 100 50 ≤ 65535) ∧
      (hardLightIsLite 200 100 = false →
        hardLightBothRaw 200 150 100 50 + hardLightDarkRaw 100 50 ≤ 65535) ∧
      100 * 150 ≤ 65025 ∧ 50 * 200 ≤ 65025) :=
  ⟨by decide, by decide, by decide, by decide,
    C2_wide_fit_amended 200 150 100 50 (by decide) (by decide) (by decide)
      (by decide)⟩

/-- C3 counterexample: the union-alpha identity
`alpha = sa + da − round(sa·da/255)` does not hold for SrcIn: at
s = (0,0,0,0), d = (0,0,0,255) (both premultiplied), SrcIn's result has
alpha 0 while the claimed formula gives 255. -/
theorem C3_alpha_counterexample :
    Premul (Pixel.mk 0 0 0 0) ∧ Premul (Pixel.mk 0 0 0 255) ∧
      (xfer Mode.SrcIn (Pixel.mk 0 0 0 0) (Pixel.mk 0 0 0 255)).a = 0 ∧
      (Pixel.mk 0 0 0 0).a + (Pixel.mk 0 0 0 255).a -
        div255C ((Pixel.mk 0 0 0 0).a * (Pixel.mk 0 0 0 255).a) = 255 := by
  decide

/-- C3 amended: the alpha identity `alpha = sa + da − round(sa·da/255)`
holds exactly for the six kernels computed with exact math — Multiply,
Difference, HardLight, Overlay, Darken and Lighten; Exclusion satisfies
it only with the approximate product `approxMulDiv255(sa, da)` in place
of the rounded one, and the Porter–Duff In/Out/ATop/Xor kernels have
their own Porter–Duff alpha formulas instead. -/
theorem C3_alpha_union_amended (s d : Pixel) (hs : Premul s)
    (hd : Premul d) :
    (∀ m : Mode, (m = Mode.Multiply ∨ m = Mode.Difference ∨
        m = Mode.HardLight ∨ m = Mode.Overlay ∨ m = Mode.Darken ∨
        m = Mode.Lighten) →
      (xfer m s d).a = s.a + d.a - div255C (s.a * d.a)) ∧
    (xfer Mode.Exclusion s d).a = s.a + d.a - amd255C s.a d.a := by
  obtain ⟨-, -, -, ha⟩ := hs
  obtain ⟨-, -, -, hda⟩ := hd
  constructor
  · intro m hm
    rcases hm with rfl | rfl | rfl | rfl | rfl | rfl
    · exact alpha_multiply ha hda
    · exact alpha_difference ha hda
    · exact alpha_srcover ha hda
    · have h := alpha_srcover hda ha
      rw [Nat.add_comm d.a s.a, Nat.mul_comm d.a s.a] at h
      exact h
    · exact alpha_srcover ha hda
    · exact alpha_srcover ha hda
  · exact alpha_exclusion ha hda

theorem C3_alpha_union_amended_witness :
    Premul (Pixel.mk 100 100 100 200) ∧ Premul (Pixel.mk 50 50 50 100) ∧
      (xfer Mode.Difference (Pixel.mk 100 100 100 200)
          (Pixel.mk 50 50 50 100)).a =
        (Pixel.mk 100 100 100 200).a + (Pixel.mk 50 50 50 100).a -
          div255C ((Pixel.mk 100 100 100 200).a *
            (Pixel.mk 50 50 50 100).a) :=
  ⟨by decide, by decide,
    (C3_alpha_union_amended _ _ (by decide) (by decide)).1 Mode.Difference
      (Or.inr (Or.inl rfl))⟩

/-- C4 counterexample: DstIn and DstATop do not satisfy the
zero-source destination identity: with s = (0,0,0,0) and the
premultiplied d = (0,0,0,255), both return the zero pixel, not d
(their correct Porter–Duff results scale d by the zero source alpha). -/
theorem C4_dst_identity_counterexample :
    Premul (Pixel.mk 0 0 0 255) ∧
      xfer Mode.DstIn (Pixel.mk 0 0 0 0) (Pixel.mk 0 0 0 255) ≠
        Pixel.mk 0 0 0 255 ∧
      xfer Mode.DstATop (Pixel.mk 0 0 0 0) (Pixel.mk 0 0 0 255) ≠
        Pixel.mk 0 0 0 255 := by
  decide

/-- C4 amended: the zero-source destination identity `M(0, d) = d` holds
for Dst, DstOver, DstOut, Xor, SrcOver, Plus, Screen, Exclusion and
Difference (the claimed list minus DstIn and DstATop). -/
theorem C4_dst_identity_amended (m : Mode) (d : Pixel) (hd : Premul d)
    (hm : m = Mode.Dst ∨ m = Mode.DstOver ∨ m = Mode.DstOut ∨
      m = Mode.Xor ∨ m = Mode.SrcOver ∨ m = Mode.Plus ∨
      m = Mode.Screen ∨ m = Mode.Exclusion ∨ m = Mode.Difference) :
    xfer m (Pixel.mk 0 0 0 0) d = d := by
  obtain ⟨hb, hg, hr, ha⟩ := hd
  have hb' : d.b ≤ 255 := le_trans hb ha
  have hg' : d.g ≤ 255 := le_trans hg ha
  have hr' : d.r ≤ 255 := le_trans hr ha
  rcases hm with rfl | rfl | rfl | rfl | rfl | rfl | rfl | rfl | rfl <;>
    · refine pixel_ext ?_ ?_ ?_ ?_ <;>
        · simp only [xfer, Dst, DstOver, SrcOver, DstOut, SrcOut, Xor,
            Plus, Screen, Exclusion, Difference, Pixel.add, Pixel.sub,
            Pixel.approxMulDiv255, Pixel.saturatedAdd, Pixel.alphas,
            Pixel.inv, Pixel.zeroAlphas, Pixel.mulWiden, Wide.add,
            Wide.Min, Wide.div255, addN, subN, amd255C, satAddC, div255C,
            invC, mulW, addW] <;>
          omega

theorem C4_dst_identity_amended_witness :
    Premul (Pixel.mk 10 20 30 200) ∧
      xfer Mode.Xor (Pixel.mk 0 0 0 0) (Pixel.mk 10 20 30 200) =
        Pixel.mk 10 20 30 200 :=
  ⟨by decide,
    C4_dst_identity_amended Mode.Xor _ (by decide)
      (Or.inr (Or.inr (Or.inr (Or.inl rfl))))⟩

/-- C5: for premultiplied inputs and a coverage pixel with four equal
bytes, the specialized Plus coverage path equals
`saturatedAdd(d, approxMulDiv255(s, aa))`, i.e. per byte
`min(D + approx(α·S/255), 255)`: the clamp to 255 is applied after the
coverage scaling of the source, not before. -/
theorem C5_plus_aa_specialization (s d : Pixel) (w : Nat)
    (hs : Premul s) (hd : Premul d) (hw : w ≤ 255) :
    xferAa Mode.Plus s d (Pixel.mk w w w w) =
      d.saturatedAdd (s.approxMulDiv255 (Pixel.mk w w w w)) ∧
    xferAa Mode.Plus s d (Pixel.mk w w w w) =
      Pixel.mk (min (d.b + amd255C s.b w) 255)
        (min (d.g + amd255C s.g w) 255)
        (min (d.r + amd255C s.r w) 255)
        (min (d.a + amd255C s.a w) 255) :=
  ⟨rfl, rfl⟩

theorem C5_plus_aa_specialization_witness :
    Premul (Pixel.mk 128 128 128 128) ∧ Premul (Pixel.mk 200 200 200 200) ∧
      (255 : Nat) ≤ 255 ∧
      xferAa Mode.Plus (Pixel.mk 128 128 128 128)
          (Pixel.mk 200 200 200 200) (Pixel.mk 255 255 255 255) =
        (Pixel.mk 200 200 200 200).saturatedAdd
          ((Pixel.mk 128 128 128 128).approxMulDiv255
            (Pixel.mk 255 255 255 255)) ∧
      (Pixel.mk 200 200 200 200).saturatedAdd
          ((Pixel.mk 128 128 128 128).approxMulDiv255
            (Pixel.mk 255 255 255 255)) =
        Pixel.mk 255 255 255 255 :=
  ⟨by decide, by decide, by decide,
    (C5_plus_aa_specialization (Pixel.mk 128 128 128 128)
      (Pixel.mk 200 200 200 200) 255 (by decide) (by decide)
      (by decide)).1,
    by decide⟩

/-- C6: for every supported mode (including the specialized Plus coverage
path) and premultiplied inputs, the coverage wrapper with full coverage
(all four bytes 255) returns exactly the kernel result, and with zero
coverage (all four bytes 0) returns exactly the destination. -/
theorem C6_coverage_endpoints (m : Mode) (s d : Pixel)
    (hs : Premul s) (hd : Premul d) :
    xferAa m s d (Pixel.mk 255 255 255 255) = xfer m s d ∧
      xferAa m s d (Pixel.mk 0 0 0 0) = d := by
  cases m
  case Plus =>
    obtain ⟨hsb, hsg, hsr, hsa⟩ := hs
    obtain ⟨hdb, hdg, hdr, hda⟩ := hd
    constructor
    · refine pixel_ext ?_ ?_ ?_ ?_ <;>
        (simp only [xferAa, xfer, Plus, Pixel.saturatedAdd,
          Pixel.approxMulDiv255, satAddC, amd255C] <;> omega)
    · refine pixel_ext ?_ ?_ ?_ ?_ <;>
        (simp only [xferAa, Pixel.saturatedAdd, Pixel.approxMulDiv255,
          satAddC, amd255C] <;> omega)
  all_goals exact ⟨genericAA_full hs hd, genericAA_zero hs hd⟩

theorem C6_coverage_endpoints_witness :
    Premul (Pixel.mk 10 20 30 200) ∧ Premul (Pixel.mk 40 50 60 250) ∧
      (xferAa Mode.Screen (Pixel.mk 10 20 30 200) (Pixel.mk 40 50 60 250)
          (Pixel.mk 255 255 255 255) =
        xfer Mode.Screen (Pixel.mk 10 20 30 200) (Pixel.mk 40 50 60 250) ∧
      xferAa Mode.Screen (Pixel.mk 10 20 30 200) (Pixel.mk 40 50 60 250)
          (Pixel.mk 0 0 0 0) =
        Pixel.mk 40 50 60 250) :=
  ⟨by decide, by decide,
    C6_coverage_endpoints Mode.Screen _ _ (by decide) (by decide)⟩

/-- C7: the dispatcher `SkCreate4pxXfermode` returns a handler exactly for
the 22 supported mode identifiers; any other identifier yields the
"not handled" sentinel, in which case the buffer-level operation produces
no output and the destination is untouched. -/
theorem C7_dispatcher_supported (m : SkXfermodeMode) :
    ((SkCreate4pxXfermode m).isSome = true ↔ m ∈ supportedModes) ∧
    (SkCreate4pxXfermode m = none →
      ∀ dst src : List Pixel, xfer32 m dst src = none) := by
  constructor
  · cases m <;> decide
  · intro h dst src
    unfold xfer32
    rw [h]
    rfl

theorem C7_dispatcher_supported_witness :
    ((SkCreate4pxXfermode SkXfermodeMode.Hue).isSome = true ↔
      SkXfermodeMode.Hue ∈ supportedModes) ∧
    xfer32 SkXfermodeMode.Hue [Pixel.mk 1 2 3 4] [Pixel.mk 5 6 7 8] =
      none :=
  ⟨(C7_dispatcher_supported SkXfermodeMode.Hue).1,
    (C7_dispatcher_supported SkXfermodeMode.Hue).2 rfl _ _⟩

/-- C8: SrcATop's result alpha equals the destination alpha exactly
(since (sa·da + da·(255−sa))/255 = da exactly under the rounded
division), and symmetrically DstATop's result alpha equals the source
alpha exactly. -/
theorem C8_atop_alpha_exact (s d : Pixel) (hs : Premul s)
    (hd : Premul d) :
    (SrcATop s d).a = d.a ∧ (DstATop s d).a = s.a := by
  obtain ⟨-, -, -, ha⟩ := hs
  obtain ⟨-, -, -, hda⟩ := hd
  exact ⟨(srcatop_chan (le_refl s.a) (le_refl d.a) ha hda).2,
    (srcatop_chan (le_refl d.a) (le_refl s.a) hda ha).2⟩

theorem C8_atop_alpha_exact_witness :
    Premul (Pixel.mk 11 22 33 99) ∧ Premul (Pixel.mk 44 55 66 177) ∧
      ((SrcATop (Pixel.mk 11 22 33 99) (Pixel.mk 44 55 66 177)).a = 177 ∧
        (DstATop (Pixel.mk 11 22 33 99) (Pixel.mk 44 55 66 177)).a = 99) :=
  ⟨by decide, by decide,
    C8_atop_alpha_exact _ _ (by decide) (by decide)⟩

/-- C9: for a fully opaque premultiplied source (alpha byte 255) and any
premultiplied destination, SrcOver returns the source exactly:
`approxMulDiv255` is exact at the 0 endpoint, so the destination term
vanishes. -/
theorem C9_srcover_opaque_src (s d : Pixel) (hs : Premul s)
    (hd : Premul d) (hop : s.a = 255) : SrcOver s d = s := by
  obtain ⟨hsb, hsg, hsr, hsa⟩ := hs
  obtain ⟨hdb, hdg, hdr, hda⟩ := hd
  refine pixel_ext ?_ ?_ ?_ ?_ <;>
    · simp only [SrcOver, Pixel.add, Pixel.approxMulDiv255, Pixel.alphas,
        Pixel.inv, invC, addN, amd255C, hop]
      omega

theorem C9_srcover_opaque_src_witness :
    Premul (Pixel.mk 90 120 240 255) ∧ Premul (Pixel.mk 17 34 51 68) ∧
      SrcOver (Pixel.mk 90 120 240 255) (Pixel.mk 17 34 51 68) =
        Pixel.mk 90 120 240 255 :=
  ⟨by decide, by decide,
    C9_srcover_opaque_src _ _ (by decide) (by decide) rfl⟩

/-- C10: the Plus kernel is commutative on all pixels: per-byte saturated
addition is symmetric in its arguments. -/
theorem C10_plus_commutative (s d : Pixel) : Plus s d = Plus d s := by
  refine pixel_ext ?_ ?_ ?_ ?_ <;>
    · simp only [Plus, Pixel.saturatedAdd, satAddC]
      omega

end Sk4px
